import Mathlib

/-!
Verification of the `ski` transpiler front end: the comment stripper and
lexical scanner (`src/lexer.rs`), the AST code-generation framework
(`src/ast.rs`), and the driver output format (`src/compiler.rs`).

Modelling conventions:
* Rust panics (`unimplemented!`, `.unwrap()` failures) are `none` of `Option`.
* `u16` position fields advance modulo 2 ^ 16 = 65536.
* `u64` values are `Nat` with an explicit bound 2 ^ 64 where overflow can occur.
* Strings are manipulated as `List Char` where the scanner walks them.
-/

namespace Ski

/-! ## Token and symbol model (`src/lexer.rs`) -/

/-- `enum Literal` from `src/lexer.rs`.  `Int` carries a `u64` value. -/
inductive Literal where
  | Str (s : String)
  | Int (i : Nat)
  | Bool (b : Bool)
deriving DecidableEq

/-- `enum LiteralType` from `src/lexer.rs`: the scanner state tag. -/
inductive LiteralType where
  | Str
  | Int
  | None
deriving DecidableEq

/-- `enum Keyword` from `src/lexer.rs`. -/
inductive Keyword where
  | Function
  | Let
  | Const
  | For
  | In
  | While
  | Loop
  | Return
  | If
  | Else
deriving DecidableEq

/-- `enum Symbol` from `src/lexer.rs`. -/
inductive Symbol where
  | OpenBracket
  | CloseBracket
  | OpenParen
  | CloseParen
  | SemiColon
  | DoubleEqual
  | Equal
  | Add
  | Sub
  | Mul
  | Div
  | Pow
  | AddAssign
  | SubAssign
  | MulAssign
  | DivAssign
  | SingleQuote
  | DoubleQuote
  | Gt
  | Lt
  | GtEq
  | LtEq
  | Shr
  | Shl
  | Xor
  | LogicalAnd
  | LogicalOr
  | BinaryAnd
  | BinaryOr
deriving DecidableEq

/-- `enum TokenKind` from `src/lexer.rs`. -/
inductive TokenKind where
  | Identifier (s : String)
  | Literal (l : Literal)
  | Keyword (k : Keyword)
  | Symbol (s : Symbol)
deriving DecidableEq

/-- `TokenKind::new` from `src/lexer.rs`: keyword / symbol lookup with
`Identifier` as the fallback. -/
def TokenKind.new (token : String) : TokenKind :=
  match token with
  | "fn" => .Keyword .Function
  | "let" => .Keyword .Let
  | "const" => .Keyword .Const
  | "for" => .Keyword .For
  | "while" => .Keyword .While
  | "loop" => .Keyword .Loop
  | "return" => .Keyword .Return
  | "if" => .Keyword .If
  | "else" => .Keyword .Else
  | "in" => .Keyword .In
  | "\x7b" => .Symbol .OpenBracket
  | "\x7d" => .Symbol .CloseBracket
  | "(" => .Symbol .OpenParen
  | ")" => .Symbol .CloseParen
  | "=" => .Symbol .Equal
  | "==" => .Symbol .DoubleEqual
  | ";" => .Symbol .SemiColon
  | "\'" => .Symbol .SingleQuote
  | "\"" => .Symbol .DoubleQuote
  | "+" => .Symbol .Add
  | "-" => .Symbol .Sub
  | "*" => .Symbol .Mul
  | "/" => .Symbol .Div
  | "**" => .Symbol .Pow
  | "+=" => .Symbol .AddAssign
  | "-=" => .Symbol .SubAssign
  | ">" => .Symbol .Gt
  | "<" => .Symbol .Lt
  | ">=" => .Symbol .GtEq
  | "<=" => .Symbol .LtEq
  | ">>" => .Symbol .Shr
  | "<<" => .Symbol .Shl
  | "^" => .Symbol .Xor
  | "&" => .Symbol .BinaryAnd
  | "|" => .Symbol .BinaryOr
  | "&&" => .Symbol .LogicalAnd
  | "||" => .Symbol .LogicalOr
  | "true" => .Literal (.Bool true)
  | "false" => .Literal (.Bool false)
  | _ => .Identifier token

/-- `struct Pos` from `src/lexer.rs`: `row` and `col` are `u16`. -/
structure Pos where
  row : Nat
  col : Nat
deriving DecidableEq

/-- `struct Token` from `src/lexer.rs`. -/
structure Token where
  kind : TokenKind
  pos : Pos
deriving DecidableEq

/-! ## Comment stripper (`Lexer::strip_comments`)

`strip_comments` applies two pattern replacements to the input, block
comments first:
* block pattern: an opener followed by everything through the first
  subsequent closer (the classic non-nesting block-comment pattern); if an
  opener has no later closer the pattern does not match at all;
* line pattern: a double slash followed by every character up to, but
  excluding, the next newline or carriage return (or end of input).

Each replacement scans left to right over non-overlapping matches of the
original text; text produced by a deletion is not rescanned within the
same pass.  The functions below realize exactly those match semantics; a
fuel argument bounded by the list length keeps the recursion structural. -/

/-- After a block-comment opener: drop everything through the first
closer, returning the remainder, or `none` when no closer follows. -/
def dropToCloser : List Char → Option (List Char)
  | [] => none
  | '*' :: '/' :: rest => some rest
  | _ :: rest => dropToCloser rest

/-- One block-comment removal pass, fuelled. -/
def blockStripF : Nat → List Char → List Char
  | 0, s => s
  | _ + 1, [] => []
  | fuel + 1, c :: rest =>
    if c = '/' ∧ rest.head? = some '*' then
      match dropToCloser rest.tail with
      | some rest2 => blockStripF fuel rest2
      | none => c :: rest
    else c :: blockStripF fuel rest

/-- Block-comment removal (the `multi_line` replacement). -/
def blockStrip (s : List Char) : List Char :=
  blockStripF s.length s

/-- Skip the body of a line comment: every character up to, but not
including, the next newline or carriage return. -/
def dropLine : List Char → List Char
  | [] => []
  | c :: rest => if c = '\n' ∨ c = '\r' then c :: rest else dropLine rest

/-- One line-comment removal pass, fuelled. -/
def lineStripF : Nat → List Char → List Char
  | 0, s => s
  | _ + 1, [] => []
  | fuel + 1, c :: rest =>
    if c = '/' ∧ rest.head? = some '/' then lineStripF fuel (dropLine rest.tail)
    else c :: lineStripF fuel rest

/-- Line-comment removal (the `single_line` replacement). -/
def lineStrip (s : List Char) : List Char :=
  lineStripF s.length s

/-- `Lexer::strip_comments`, pure result: block comments are removed
before line comments. -/
def stripComments (s : List Char) : List Char :=
  lineStrip (blockStrip s)

/-- Does the text contain the two-character sequence `a` then `b`
(adjacent, anywhere)? -/
def hasPair (a b : Char) : List Char → Bool
  | [] => false
  | c :: rest =>
    if c = a ∧ rest.head? = some b then true else hasPair a b rest

/-- The error type of the pattern engine (`regex::Error`). -/
inductive PatternError where
  | patternError (msg : String)
deriving DecidableEq

/-- Construction of a pattern engine.  `strip_comments` only ever builds
the two fixed, well-formed patterns shown above, so construction always
succeeds; the fallible signature mirrors the source. -/
def regexNew (_ : String) : Except PatternError Unit :=
  .ok ()

/-- `Lexer::strip_comments` with its fallible signature
(`Result<String, regex::Error>`). -/
def stripCommentsE (s : List Char) : Except PatternError (List Char) :=
  match regexNew "single-line pattern" with
  | .error e => .error e
  | .ok _ =>
    match regexNew "multi-line pattern" with
    | .error e => .error e
    | .ok _ => .ok (stripComments s)

/-! ## Integer literal parsing (`u64::from_str_radix`) -/

/-- `char::to_digit` without the radix bound: digit value of `0`-`9`,
`a`-`z`, `A`-`Z`. -/
def digitValue (c : Char) : Option Nat :=
  if '0' ≤ c ∧ c ≤ '9' then some (c.toNat - '0'.toNat)
  else if 'a' ≤ c ∧ c ≤ 'z' then some (c.toNat - 'a'.toNat + 10)
  else if 'A' ≤ c ∧ c ≤ 'Z' then some (c.toNat - 'A'.toNat + 10)
  else none

/-- Accumulate digits in the given base, failing on an invalid digit or
on `u64` overflow (value reaching 2 ^ 64). -/
def parseDigits (base : Nat) : Nat → List Char → Option Nat
  | acc, [] => some acc
  | acc, c :: rest =>
    match digitValue c with
    | none => none
    | some d =>
      if d < base then
        if acc * base + d < 18446744073709551616 then
          parseDigits base (acc * base + d) rest
        else none
      else none

/-- `u64::from_str_radix`: optional leading plus sign, then one or more
digits of the base; `none` models the `Err` that the scanner unwraps. -/
def fromStrRadix (base : Nat) (cs : List Char) : Option Nat :=
  let ds := match cs with
    | '+' :: rest => rest
    | _ => cs
  match ds with
  | [] => none
  | _ => parseDigits base 0 ds

/-! ## The scanner (`Lexer::lex`) -/

/-- The scanner state threaded through the character loop of
`Lexer::lex`: emitted tokens, the pending `current_identifier` buffer,
the literal sub-state, the integer base, and the position cursor. -/
structure ScanState where
  tokens : List Token
  cur : List Char
  literal : LiteralType
  base : Nat
  pos : Pos
deriving DecidableEq

/-- Append a token carrying the current position. -/
def pushTok (st : ScanState) (k : TokenKind) : ScanState :=
  { st with tokens := st.tokens ++ [⟨k, st.pos⟩] }

/-- Flush the pending buffer as a classified token, if nonempty. -/
def flushCur (st : ScanState) : ScanState :=
  if st.cur = [] then st
  else { (pushTok st (TokenKind.new (String.mk st.cur))) with cur := [] }

/-- The `Normal`-state character dispatch of `Lexer::lex` (the second
`match c` in the loop body).  The position has already been advanced. -/
def normalStep (st : ScanState) (c : Char) : ScanState :=
  if c = ' ' ∨ c = '\r' ∨ c = '\t' then
    flushCur st
  else if c = '\n' then
    { flushCur st with pos := ⟨((flushCur st).pos.row + 1) % 65536, 0⟩ }
  else if c = '\x7b' ∨ c = '\x7d' ∨ c = '(' ∨ c = ')' ∨ c = ';' ∨ c = '^' then
    pushTok (flushCur st) (TokenKind.new (String.mk [c]))
  else if c = '+' then
    { (flushCur st) with cur := ['+'] }
  else if c = '-' then
    { (flushCur st) with cur := ['-'] }
  else if c = '"' then
    { st with literal := .Str }
  else if c = '=' then
    if st.cur = ['='] ∨ st.cur = ['+'] ∨ st.cur = ['-'] ∨ st.cur = ['*'] ∨
        st.cur = ['/'] ∨ st.cur = ['<'] ∨ st.cur = ['>'] then
      { (pushTok st (TokenKind.new (String.mk (st.cur ++ ['='])))) with cur := [] }
    else
      { (flushCur st) with cur := ['='] }
  else if c = '&' ∨ c = '|' ∨ c = '*' ∨ c = '/' ∨ c = '>' ∨ c = '<' then
    if st.cur = [c] then
      { (pushTok st (TokenKind.new (String.mk [c, c]))) with cur := [] }
    else
      { (flushCur st) with cur := [c] }
  else if '0' ≤ c ∧ c ≤ '9' then
    { (flushCur st) with literal := .Int, cur := [c] }
  else
    if st.cur = ['='] ∨ st.cur = ['&'] ∨ st.cur = ['|'] ∨ st.cur = ['*'] ∨
        st.cur = ['/'] ∨ st.cur = ['<'] ∨ st.cur = ['>'] ∨ st.cur = ['+'] ∨
        st.cur = ['-'] then
      { (pushTok st (TokenKind.new (String.mk st.cur))) with cur := [c] }
    else
      { st with cur := st.cur ++ [c] }

/-- One iteration of the character loop of `Lexer::lex`: advance the
column, then dispatch on the literal sub-state.  `none` models the
panics (`unimplemented!` on a stray hex digit or misplaced `x`, and the
`unwrap` of `from_str_radix`). -/
def step (st0 : ScanState) (c : Char) : Option ScanState :=
  let st : ScanState :=
    { st0 with pos := ⟨st0.pos.row, (st0.pos.col + 1) % 65536⟩ }
  match st.literal with
  | .Str =>
    if c = '"' then
      some { (pushTok st (.Literal (.Str (String.mk st.cur)))) with
               cur := [], literal := .None }
    else
      some { st with cur := st.cur ++ [c] }
  | .Int =>
    if '0' ≤ c ∧ c ≤ '9' then
      some { st with cur := st.cur ++ [c] }
    else if ('a' ≤ c ∧ c ≤ 'f') ∨ ('A' ≤ c ∧ c ≤ 'F') then
      if st.base = 16 then some { st with cur := st.cur ++ [c] } else none
    else if c = 'x' then
      if st.cur.length = 1 then some { st with cur := [], base := 16 } else none
    else
      match fromStrRadix st.base st.cur with
      | none => none
      | some n =>
        some (normalStep
          { (pushTok st (.Literal (.Int n))) with
              base := 10, cur := [], literal := .None } c)
  | .None => some (normalStep st c)

/-- Fold `step` over the input characters. -/
def scanChars : ScanState → List Char → Option ScanState
  | st, [] => some st
  | st, c :: cs => (step st c).bind (fun st2 => scanChars st2 cs)

/-- The end-of-input flush at the bottom of `Lexer::lex`. -/
def finish (st : ScanState) : Option (List Token)  :=
  match st.literal with
  | .Int =>
    match fromStrRadix st.base st.cur with
    | none => none
    | some n => some (st.tokens ++ [⟨.Literal (.Int n), st.pos⟩])
  | .Str => some (st.tokens ++ [⟨.Literal (.Str (String.mk st.cur)), st.pos⟩])
  | .None =>
    if st.cur = [] then some st.tokens
    else some (st.tokens ++ [⟨TokenKind.new (String.mk st.cur), st.pos⟩])

/-- The scanner state of a fresh `Lexer::new()`. -/
def initState : ScanState :=
  ⟨[], [], .None, 10, ⟨0, 0⟩⟩

/-- The scanning loop of `Lexer::lex` on already-stripped text. -/
def scan (cs : List Char) : Option (List Token) :=
  (scanChars initState cs).bind finish

/-- `Lexer::lex` from a fresh lexer: strip comments, then scan.  `none`
models a panic; the `Result` error channel is treated by `lexE`. -/
def lex (s : List Char) : Option (List Token) :=
  scan (stripComments s)

/-- `Lexer::lex` with its fallible signature: the question-mark operator
on `strip_comments`, then `Ok` of the scanned tokens. -/
def lexE (s : List Char) : Except PatternError (Option (List Token)) :=
  match stripCommentsE s with
  | .error e => .error e
  | .ok input => .ok (scan input)

/-- The token-kind sequence of a scan outcome (positions forgotten). -/
def tkOf (r : Option (List Token)) : Option (List TokenKind) :=
  r.map (fun ts => ts.map Token.kind)

/-! ## AST and code generation (`src/ast.rs`) -/

/-- Modelled from the spec: the `Target` enum is imported from
`crate::compiler` but is not defined under `src/`; the spec reserves one
realized batch dialect plus three declared, unimplemented dialect slots
(the `compile_asm`, `compile_dos`, `compile_bash` methods).  Every
renderer under `src/ast.rs` ignores the selector. -/
inductive Target where
  | batch
  | asm
  | dos
  | bash
deriving DecidableEq

/-- `enum UnaryOpKind` from `src/ast.rs`. -/
inductive UnaryOpKind where
  | Minus
  | LogicalNot
  | BitwiseNot
deriving DecidableEq

/-- `enum BinaryOpKind` from `src/ast.rs`. -/
inductive BinaryOpKind where
  | Add
  | Sub
  | Mul
  | Div
  | Assign
  | Eq
  | Ne
  | Gt
  | Lt
  | GtEq
  | LtEq
  | Shr
  | Shl
  | Xor
  | LogicalAnd
  | LogicalOr
  | BinaryAnd
  | BinaryOr
deriving DecidableEq

/-- `impl Compile for UnaryOpKind`. -/
def UnaryOpKind.compile (op : UnaryOpKind) (_ : Target) : String :=
  match op with
  | .Minus => "-"
  | .LogicalNot => "NOT"
  | .BitwiseNot => "~"

/-- `impl Compile for BinaryOpKind`. -/
def BinaryOpKind.compile (op : BinaryOpKind) (_ : Target) : String :=
  match op with
  | .Add => "+"
  | .Sub => "-"
  | .Mul => "*"
  | .Div => "/"
  | .Assign => "EQU"
  | .Eq => "=="
  | .Ne => "NEQ"
  | .Gt => "GTR"
  | .Lt => "LSS"
  | .GtEq => "GEQ"
  | .LtEq => "LEQ"
  | .Shr => ">>"
  | .Shl => "<<"
  | .Xor => "^"
  | .LogicalAnd => "&&"
  | .LogicalOr => "||"
  | .BinaryAnd => "&"
  | .BinaryOr => "|"

/-- `impl Compile for Literal` from `src/ast.rs`: the body is
`unimplemented!`. -/
def Literal.compile (_ : Literal) (_ : Target) : Option String :=
  none

/-- `enum Expr` from `src/ast.rs`.  The boxed payload structs
(`UnaryExpr`, `BinaryExpr`, `VariableDecl`, `ConstDecl`, `If`,
`FuncDef`, `FuncCall`, `While`, `Loop`, `For`) are flattened into
constructor fields. -/
inductive Expr where
  | Int (i : Nat)
  | Str (s : String)
  | Variable (v : String)
  | Unary (op : UnaryOpKind) (child : Expr)
  | Binary (op : BinaryOpKind) (left : Expr) (right : Expr)
  | Literal (l : Literal)
  | Return (e : Expr)
  | VariableDecl (name : String) (value : Expr)
  | ConstDecl (name : String) (value : Expr)
  | If (cond : Expr) (then_ : Expr) (else_ : Expr)
  | FuncDef (name : String) (params : List String) (body : Expr)
  | FuncCall (funcName : String) (params : List Expr)
  | While (cond : Expr) (body : Expr)
  | Loop (body : Expr)
  | For (item : String) (container : Expr) (body : Expr)
  | Continue
  | Break
  | Block (es : List Expr)

mutual

/-- `impl Compile for Expr`, `fn compile`: the node-kind dispatch of the
render capability.  The sub-impl templates of `src/ast.rs` are inlined at
their dispatch sites; `unimplemented!` arms are `none`. -/
def Expr.compile : Expr → Target → Option String
  | .Int i, _ => some (toString i)
  | .Str s, _ => some s
  | .Variable v, _ => some v
  | .Unary op child, t =>
    (Expr.compile child t).map (fun cs => UnaryOpKind.compile op t ++ cs)
  | .Binary op l r, t =>
    (Expr.compile l t).bind (fun ls =>
      (Expr.compile r t).map (fun rs =>
        "\"%" ++ ls ++ "%\" " ++ BinaryOpKind.compile op t ++ " \"%" ++ rs ++ "%\""))
  | .Literal l, t => Literal.compile l t
  | .Return _, _ => none
  | .VariableDecl name value, t =>
    (Expr.compile value t).map (fun vs => "set " ++ name ++ "=" ++ vs ++ "\n")
  | .ConstDecl _ _, _ => none
  | .If c th el, t =>
    (Expr.compile c t).bind (fun cs =>
      (Expr.compile th t).bind (fun ts =>
        (Expr.compile el t).map (fun es =>
          "If " ++ cs ++ " ( \n " ++ ts ++ " ) \n ELSE ( " ++ es ++ " \n ) \n")))
  | .FuncDef _ _ _, _ => none
  | .FuncCall _ _, _ => some "(1, 2, 3, 4)"
  | .While _ _, _ => none
  | .Loop _, _ => none
  | .For item container body, t =>
    (Expr.compile container t).bind (fun cs =>
      (Expr.compile body t).map (fun bs =>
        "FOR %%" ++ item ++ " IN " ++ cs ++ " DO (\n" ++ bs ++ ")\n"))
  | .Continue, _ => none
  | .Break, _ => none
  | .Block es, t => compileVec es t

/-- `impl Compile for Vec<Expr>`: render each element and join the
results with newlines. -/
def compileVec : List Expr → Target → Option String
  | [], _ => some ""
  | [e], t => Expr.compile e t
  | e :: e2 :: rest, t =>
    (Expr.compile e t).bind (fun s =>
      (compileVec (e2 :: rest) t).map (fun ss => s ++ "\n" ++ ss))

end

/-- `struct Loop` from `src/ast.rs`. -/
structure Loop where
  body : Expr

/-- `impl Compile for Loop`, `fn compile`: the bare-loop renderer.  Note
that the `Expr::compile` dispatcher never invokes it — its `Loop` arm is
`unimplemented!`. -/
def Loop.compile (self : Loop) (t : Target) : Option String :=
  (Expr.compile self.body t).map (fun bs => ":LOOP\n" ++ bs ++ "\ngoto :LOOP")

/-! ## The driver (`src/compiler.rs`) -/

/-- The byte content `Compiler::compile` writes to the output file, as a
character list: the `@echo off` line, two `REM` notice lines, the
rendered AST text, and the trailing `@echo on`.  `none` when rendering
the AST panics. -/
def compilerOutput (ast : Expr) (t : Target) : Option (List Char) :=
  (Expr.compile ast t).map (fun body =>
    "@echo off\n".toList ++
    "REM AUTO-GENERATED FILE. DO NOT MODIFY.\n".toList ++
    "REM This file was automatically generated by the ski compiler.\n".toList ++
    body.toList ++
    "@echo on".toList)

/-! ## Position order and scanner invariants -/

/-- Row-major (row first, then column) order on positions. -/
def posLe (p q : Pos) : Prop :=
  p.row < q.row ∨ (p.row = q.row ∧ p.col ≤ q.col)

instance (p q : Pos) : Decidable (posLe p q) := by
  unfold posLe; infer_instance

/-- Scanner invariant: already-emitted tokens carry non-decreasing
positions, all bounded by the cursor. -/
def StInv (st : ScanState) : Prop :=
  List.Pairwise posLe (st.tokens.map Token.pos) ∧
  ∀ tk ∈ st.tokens, posLe tk.pos st.pos

/-- A single row of 65533 identifier characters, used to overflow the
16-bit column counter within one line. -/
def c9run : List Char := List.replicate 65533 'b'

/-- An input whose second token is flushed after the column counter has
wrapped around to 0. -/
def c9input : List Char := 'a' :: ' ' :: (c9run ++ [' '])

/-- The tokens the scanner emits for `c9input`: the second token's
column (0) is smaller than the first token's column (2). -/
def c9tokens : List Token :=
  [⟨.Identifier "a", ⟨0, 2⟩⟩, ⟨TokenKind.new (String.mk c9run), ⟨0, 0⟩⟩]

/-! ## Theorems -/

/-- Claim C1: the spec promises that rendering a bare loop through the
public render capability yields a label, the body text, and a jump back
to the label.  The dispatcher instead hits `unimplemented!` on the
`Loop` arm and returns no text, even though the complete bare-loop
renderer (`impl Compile for Loop`) exists in the source and would
produce exactly the promised text; the dispatcher simply never calls
it. -/
theorem loop_render_unreachable :
    Expr.compile (.Loop (.Int 1)) .batch = none ∧
    Loop.compile ⟨.Int 1⟩ .batch = some ":LOOP\n1\ngoto :LOOP" := by
  constructor
  · simp [Expr.compile]
  · rfl

/-- Claim C2: rendering any node of an unimplemented kind (`Return`,
constant declaration, function definition, while-loop, `continue`,
`break`) fails with the explicit unsupported signal (`unimplemented!`,
modelled as `none`) for every target and every payload, and never
returns a text string. -/
theorem unsupported_nodes_render_none (t : Target) (e : Expr) (n : String)
    (v : Expr) (ps : List String) (c b : Expr) :
    Expr.compile (.Return e) t = none ∧
    Expr.compile (.ConstDecl n v) t = none ∧
    Expr.compile (.FuncDef n ps b) t = none ∧
    Expr.compile (.While c b) t = none ∧
    Expr.compile .Continue t = none ∧
    Expr.compile .Break t = none := by
  refine ⟨?_, ?_, ?_, ?_, ?_, ?_⟩ <;> simp [Expr.compile]

/-- Claim C10: the `Literal` wrapper node renders through
`impl Compile for Literal`, whose body is `unimplemented!`; so for every
wrapped literal value and every target the render fails rather than
returning text. -/
theorem literal_wrapper_render_none (l : Literal) (t : Target) :
    Expr.compile (.Literal l) t = none := by
  simp [Expr.compile, Literal.compile]

/-- Claim C4: `lex` propagates the comment stripper outcome unchanged:
it fails with a `PatternError` exactly when `strip_comments` does (with
the same error), and otherwise wraps the scan of the stripped text in
`Ok` — the scanner itself introduces no structured error.  The two
fixed patterns always construct, so in fact neither side ever errors. -/
theorem lex_error_iff_strip_error (s : List Char) :
    lexE s = .ok (lex s) ∧
    ∀ e, (lexE s = .error e ↔ stripCommentsE s = .error e) := by
  constructor
  · rfl
  · intro e
    constructor
    · intro h; cases h
    · intro h; cases h

/-- Claim C5: lexing `0x1F` yields exactly one token, the integer
literal 31.  The first conjunct exhibits the scanner state after `0x`:
the `x` after the single accumulated `0` has switched the base to 16 and
discarded the buffer; the hex digits then accumulate and the end-of-input
flush parses them in base 16. -/
theorem lex_hex_literal :
    scanChars initState "0x".toList = some ⟨[], [], .Int, 16, ⟨0, 2⟩⟩ ∧
    lex "0x1F".toList = some [⟨.Literal (.Int 31), ⟨0, 4⟩⟩] := by
  constructor
  · decide
  · decide

/-- Claim C6: lexing `| |` yields two `Symbol(BinaryOr)` tokens — the
intervening space flushes each single pipe separately — whereas the
adjacent pipes of `||` merge into a single `Symbol(LogicalOr)` token:
operator doubling requires adjacency with no separator. -/
theorem lex_separated_pipes :
    lex "| |".toList =
      some [⟨.Symbol .BinaryOr, ⟨0, 2⟩⟩, ⟨.Symbol .BinaryOr, ⟨0, 3⟩⟩] ∧
    lex "||".toList = some [⟨.Symbol .LogicalOr, ⟨0, 2⟩⟩] := by
  constructor
  · decide
  · decide

/-! ### Comment stripping: idempotence (claim C3) -/

/-- If the text has no adjacent `a`-`b` pair, neither has its tail. -/
theorem hasPair_tail {a b c : Char} {l : List Char}
    (h : hasPair a b (c :: l) = false) : hasPair a b l = false := by
  unfold hasPair at h
  split at h
  · cases h
  · exact h

/-- Block-comment removal leaves opener-free text unchanged. -/
theorem blockStripF_id (fuel : Nat) (s : List Char)
    (h : hasPair '/' '*' s = false) : blockStripF fuel s = s := by
  induction fuel generalizing s with
  | zero => rfl
  | succ n ih =>
    cases s with
    | nil => rfl
    | cons c rest =>
      have hc : ¬(c = '/' ∧ rest.head? = some '*') := by
        intro hp
        unfold hasPair at h
        rw [if_pos hp] at h
        cases h
      unfold blockStripF
      rw [if_neg hc, ih rest (hasPair_tail h)]

/-- Line-comment removal leaves marker-free text unchanged. -/
theorem lineStripF_id (fuel : Nat) (s : List Char)
    (h : hasPair '/' '/' s = false) : lineStripF fuel s = s := by
  induction fuel generalizing s with
  | zero => rfl
  | succ n ih =>
    cases s with
    | nil => rfl
    | cons c rest =>
      have hc : ¬(c = '/' ∧ rest.head? = some '/') := by
        intro hp
        unfold hasPair at h
        rw [if_pos hp] at h
        cases h
      unfold lineStripF
      rw [if_neg hc, ih rest (hasPair_tail h)]

/-- Comment stripping fixes any text without comment markers. -/
theorem stripComments_fixed {t : List Char}
    (h1 : hasPair '/' '*' t = false) (h2 : hasPair '/' '/' t = false) :
    stripComments t = t := by
  unfold stripComments blockStrip lineStrip
  rw [blockStripF_id _ _ h1, lineStripF_id _ _ h2]

/-- Claim C3, counterexample: comment stripping is not idempotent.  One
strip of `//*x*/*b*/` removes the inner block comment, juxtaposing the
remaining characters into the fresh block comment `/*b*/` (the line pass
then finds no marker), and a second strip removes that too. -/
theorem strip_comments_not_idempotent :
    stripComments (stripComments "//*x*/*b*/".toList) ≠
      stripComments "//*x*/*b*/".toList := by
  decide

/-- Claim C3, amended: comment stripping is idempotent on every input
whose once-stripped text contains no residual `/*` or `//` marker; in
general block-comment removal can juxtapose the surrounding characters
into a new comment that only a second strip removes. -/
theorem strip_comments_idempotent_of_marker_free (s : List Char)
    (h1 : hasPair '/' '*' (stripComments s) = false)
    (h2 : hasPair '/' '/' (stripComments s) = false) :
    stripComments (stripComments s) = stripComments s :=
  stripComments_fixed h1 h2

/-- Witness for the amended claim C3 at the input `a//x`. -/
theorem strip_comments_idempotent_witness :
    hasPair '/' '*' (stripComments "a//x".toList) = false ∧
    hasPair '/' '/' (stripComments "a//x".toList) = false ∧
    stripComments (stripComments "a//x".toList) = stripComments "a//x".toList :=
  ⟨by decide, by decide,
    strip_comments_idempotent_of_marker_free "a//x".toList (by decide) (by decide)⟩

/-! ### Driver output format (claim C8) -/

/-- Claim C8, counterexample: the driver output is not a two-line header
followed by the rendered AST and the trailing `@echo on`.  For the AST
`Int 1` there is no newline-free notice line making the output equal to
`@echo off` + one notice line + body + `@echo on`: the written content
has three newlines, the claimed shape only two. -/
theorem compiler_header_not_two_lines :
    ¬ ∃ notice : List Char, '\n' ∉ notice ∧
      compilerOutput (.Int 1) .batch =
        some ("@echo off\n".toList ++ notice ++ ['\n'] ++ "1".toList ++ "@echo on".toList) := by
  rintro ⟨notice, hn, heq⟩
  have hout : compilerOutput (.Int 1) .batch =
      some ("@echo off\nREM AUTO-GENERATED FILE. DO NOT MODIFY.\nREM This file was automatically generated by the ski compiler.\n1@echo on".toList) := by
    decide
  rw [hout] at heq
  have heq2 := Option.some.inj heq
  have hcount := congrArg (List.count '\n') heq2
  simp only [List.count_append] at hcount
  have h0 : List.count '\n' notice = 0 := List.count_eq_zero.mpr hn
  rw [h0] at hcount
  have hbig : List.count '\n' "@echo off\nREM AUTO-GENERATED FILE. DO NOT MODIFY.\nREM This file was automatically generated by the ski compiler.\n1@echo on".toList = 3 := by decide
  have ha : List.count '\n' "@echo off\n".toList = 1 := by decide
  have hb : List.count '\n' ['\n'] = 1 := by decide
  have hc : List.count '\n' "1".toList = 0 := by decide
  have hd : List.count '\n' "@echo on".toList = 0 := by decide
  rw [hbig, ha, hb, hc, hd] at hcount
  omega

/-- Claim C8, amended: whenever the AST renders to some text, the byte
content the driver writes is exactly a fixed THREE-line header — the
`@echo off` line followed by two auto-generation notice lines — then the
rendered AST text, then the trailing `@echo on`. -/
theorem compiler_output_shape (ast : Expr) (t : Target) (body : String)
    (h : Expr.compile ast t = some body) :
    compilerOutput ast t =
      some ("@echo off\nREM AUTO-GENERATED FILE. DO NOT MODIFY.\nREM This file was automatically generated by the ski compiler.\n".toList
        ++ body.toList ++ "@echo on".toList) := by
  unfold compilerOutput
  rw [h]
  have hsplit : ("@echo off\nREM AUTO-GENERATED FILE. DO NOT MODIFY.\nREM This file was automatically generated by the ski compiler.\n".toList : List Char) =
      "@echo off\n".toList ++ "REM AUTO-GENERATED FILE. DO NOT MODIFY.\n".toList
        ++ "REM This file was automatically generated by the ski compiler.\n".toList := by
    decide
  rw [hsplit]
  simp [List.append_assoc]

/-- Witness for the amended claim C8 at the AST `Int 1`. -/
theorem compiler_output_shape_witness :
    Expr.compile (.Int 1) .batch = some "1" ∧
    compilerOutput (.Int 1) .batch =
      some ("@echo off\nREM AUTO-GENERATED FILE. DO NOT MODIFY.\nREM This file was automatically generated by the ski compiler.\n".toList
        ++ "1".toList ++ "@echo on".toList) :=
  ⟨rfl, compiler_output_shape (.Int 1) .batch "1" rfl⟩

/-! ### End-of-input flush (claim C7) -/

/-- Scanning distributes over appended input. -/
theorem scanChars_append (st : ScanState) (l1 l2 : List Char) :
    scanChars st (l1 ++ l2) = (scanChars st l1).bind (fun st2 => scanChars st2 l2) := by
  induction l1 generalizing st with
  | nil => simp [scanChars]
  | cons c cs ih =>
    simp only [List.cons_append, scanChars]
    cases step st c with
    | none => simp
    | some st2 => simp [ih]

/-- Outside the string-literal state, the end-of-input flush emits the
same token kinds as one more space character followed by the flush. -/
theorem step_space_kinds (st : ScanState) (h : st.literal ≠ .Str) :
    tkOf ((step st ' ').bind finish) = tkOf (finish st) := by
  cases hl : st.literal with
  | Str => exact absurd hl h
  | None =>
    by_cases hc : st.cur = []
    · simp [step, hl, normalStep, flushCur, hc, finish, tkOf]
    · simp [step, hl, normalStep, flushCur, hc, finish, tkOf, pushTok]
  | Int =>
    cases hr : fromStrRadix st.base st.cur with
    | none => simp [step, hl, hr, finish, tkOf]
    | some n => simp [step, hl, hr, normalStep, flushCur, finish, tkOf, pushTok]

/-- Claim C7, amended: provided the appended space survives comment
stripping (it is not absorbed into a trailing comment) and the scan of
the stripped input does not end inside a string literal, `lex` of the
input with one trailing space yields the same token-kind sequence as
`lex` of the input alone.  The full token lists can differ: the position
attached to the final token advances with the extra column, and inside a
string literal a trailing space is appended to the literal text instead
of terminating it. -/
theorem lex_trailing_space_kinds (s : List Char)
    (h1 : stripComments (s ++ [' ']) = stripComments s ++ [' '])
    (h2 : ∀ st, scanChars initState (stripComments s) = some st → st.literal ≠ .Str) :
    tkOf (lex (s ++ [' '])) = tkOf (lex s) := by
  unfold lex scan
  rw [h1, scanChars_append]
  cases hsc : scanChars initState (stripComments s) with
  | none => simp [tkOf]
  | some st =>
    have hst := h2 st hsc
    have hone : scanChars st [' '] = step st ' ' := by
      cases hx : step st ' ' <;> simp [scanChars, hx]
    simp only [Option.some_bind]
    rw [hone]
    exact step_space_kinds st hst

/-- Witness for the amended claim C7 at the input `a`. -/
theorem lex_trailing_space_kinds_witness :
    tkOf (lex ("a".toList ++ [' '])) = tkOf (lex "a".toList) := by
  apply lex_trailing_space_kinds
  · decide
  · intro st h
    rw [show scanChars initState (stripComments "a".toList)
        = some ⟨[], ['a'], .None, 10, ⟨0, 1⟩⟩ from by decide] at h
    cases Option.some.inj h
    decide

/-- Claim C7, counterexample: `lex(s)` does not equal `lex(s + space)`
including positions.  For `s = "a"` the sole token is `Identifier "a"`
at column 1 without the trailing space but at column 2 with it, because
the column advances once for the space before the flush happens. -/
theorem lex_trailing_space_positions_differ :
    lex ("a".toList ++ [' ']) ≠ lex "a".toList := by decide

/-! ### Position monotonicity (claim C9) -/

theorem posLe_refl (p : Pos) : posLe p p := Or.inr ⟨rfl, Nat.le_refl _⟩

theorem posLe_of_row_lt {p q : Pos} (h : p.row < q.row) : posLe p q := Or.inl h

theorem posLe_trans {p q r : Pos} (h1 : posLe p q) (h2 : posLe q r) : posLe p r := by
  unfold posLe at *
  rcases h1 with h1 | ⟨e1, c1⟩ <;> rcases h2 with h2 | ⟨e2, c2⟩
  · exact Or.inl (h1.trans h2)
  · exact Or.inl (e2 ▸ h1)
  · exact Or.inl (e1 ▸ h2)
  · exact Or.inr ⟨e1.trans e2, c1.trans c2⟩

theorem pairwise_push {toks : List Token} {p : Pos} {k : TokenKind}
    (h1 : List.Pairwise posLe (toks.map Token.pos))
    (h2 : ∀ tk ∈ toks, posLe tk.pos p) :
    List.Pairwise posLe ((toks ++ [Token.mk k p]).map Token.pos) := by
  rw [List.map_append, List.pairwise_append]
  refine ⟨h1, by simp, ?_⟩
  intro a ha b hb
  simp only [List.map_cons, List.map_nil, List.mem_singleton] at hb
  subst hb
  simp only [List.mem_map] at ha
  obtain ⟨tk, htk, rfl⟩ := ha
  exact h2 tk htk

theorem StInv_pushTok {st : ScanState} (k : TokenKind) (h : StInv st) :
    StInv (pushTok st k) := by
  obtain ⟨h1, h2⟩ := h
  refine ⟨pairwise_push h1 h2, ?_⟩
  intro tk htk
  simp only [pushTok, List.mem_append, List.mem_singleton] at htk
  rcases htk with htk | rfl
  · exact h2 tk htk
  · exact posLe_refl _

theorem StInv_flushCur {st : ScanState} (h : StInv st) : StInv (flushCur st) := by
  unfold flushCur
  split
  · exact h
  · exact StInv_pushTok _ h

theorem StInv_advance {st : ScanState} {p : Pos} (h : StInv st) (hp : posLe st.pos p) :
    StInv { st with pos := p } :=
  ⟨h.1, fun tk htk => posLe_trans (h.2 tk htk) hp⟩

theorem flushCur_pos (st : ScanState) : (flushCur st).pos = st.pos := by
  unfold flushCur; split <;> rfl

theorem normalStep_inv (st : ScanState) (c : Char)
    (hrow : st.pos.row + 1 < 65536) (h : StInv st) :
    StInv (normalStep st c) ∧
      ((normalStep st c).pos = st.pos ∨
        (normalStep st c).pos = Pos.mk (st.pos.row + 1) 0) := by
  unfold normalStep
  by_cases h1 : c = ' ' ∨ c = '\r' ∨ c = '\t'
  · rw [if_pos h1]
    exact ⟨StInv_flushCur h, Or.inl (flushCur_pos st)⟩
  rw [if_neg h1]
  by_cases h2 : c = '\n'
  · rw [if_pos h2]
    have hmod : ((flushCur st).pos.row + 1) % 65536 = st.pos.row + 1 := by
      rw [flushCur_pos]
      exact Nat.mod_eq_of_lt hrow
    refine ⟨?_, Or.inr (by rw [hmod])⟩
    refine StInv_advance (StInv_flushCur h) ?_
    rw [hmod, flushCur_pos]
    exact posLe_of_row_lt (Nat.lt_succ_self _)
  rw [if_neg h2]
  by_cases h3 : c = '\x7b' ∨ c = '\x7d' ∨ c = '(' ∨ c = ')' ∨ c = ';' ∨ c = '^'
  · rw [if_pos h3]
    exact ⟨StInv_pushTok _ (StInv_flushCur h), Or.inl (flushCur_pos st)⟩
  rw [if_neg h3]
  by_cases h4 : c = '+'
  · rw [if_pos h4]
    exact ⟨StInv_flushCur h, Or.inl (flushCur_pos st)⟩
  rw [if_neg h4]
  by_cases h5 : c = '-'
  · rw [if_pos h5]
    exact ⟨StInv_flushCur h, Or.inl (flushCur_pos st)⟩
  rw [if_neg h5]
  by_cases h6 : c = '"'
  · rw [if_pos h6]
    exact ⟨h, Or.inl rfl⟩
  rw [if_neg h6]
  by_cases h7 : c = '='
  · rw [if_pos h7]
    by_cases h7a : st.cur = ['='] ∨ st.cur = ['+'] ∨ st.cur = ['-'] ∨ st.cur = ['*'] ∨
        st.cur = ['/'] ∨ st.cur = ['<'] ∨ st.cur = ['>']
    · rw [if_pos h7a]
      exact ⟨StInv_pushTok _ h, Or.inl rfl⟩
    · rw [if_neg h7a]
      exact ⟨StInv_flushCur h, Or.inl (flushCur_pos st)⟩
  rw [if_neg h7]
  by_cases h8 : c = '&' ∨ c = '|' ∨ c = '*' ∨ c = '/' ∨ c = '>' ∨ c = '<'
  · rw [if_pos h8]
    by_cases h8a : st.cur = [c]
    · rw [if_pos h8a]
      exact ⟨StInv_pushTok _ h, Or.inl rfl⟩
    · rw [if_neg h8a]
      exact ⟨StInv_flushCur h, Or.inl (flushCur_pos st)⟩
  rw [if_neg h8]
  by_cases h9 : '0' ≤ c ∧ c ≤ '9'
  · rw [if_pos h9]
    exact ⟨StInv_flushCur h, Or.inl (flushCur_pos st)⟩
  rw [if_neg h9]
  by_cases h10 : st.cur = ['='] ∨ st.cur = ['&'] ∨ st.cur = ['|'] ∨ st.cur = ['*'] ∨
      st.cur = ['/'] ∨ st.cur = ['<'] ∨ st.cur = ['>'] ∨ st.cur = ['+'] ∨ st.cur = ['-']
  · rw [if_pos h10]
    exact ⟨StInv_pushTok _ h, Or.inl rfl⟩
  · rw [if_neg h10]
    exact ⟨h, Or.inl rfl⟩

theorem step_inv {st st' : ScanState} {c : Char}
    (hs : step st c = some st')
    (hcol : st.pos.col + 1 < 65536) (hrow : st.pos.row + 1 < 65536)
    (h : StInv st) :
    StInv st' ∧ st'.pos.col ≤ st.pos.col + 1 ∧ st'.pos.row ≤ st.pos.row + 1 := by
  have hmod : (st.pos.col + 1) % 65536 = st.pos.col + 1 := Nat.mod_eq_of_lt hcol
  have hadvInv : StInv { st with pos := ⟨st.pos.row, st.pos.col + 1⟩ } :=
    StInv_advance h (Or.inr ⟨rfl, Nat.le_succ _⟩)
  cases hl : st.literal with
  | Str =>
    rw [hl] at hadvInv
    by_cases hq : c = '"'
    · simp only [step, hl, hmod, if_pos hq] at hs
      cases Option.some.inj hs
      refine ⟨StInv_pushTok _ hadvInv, ?_, ?_⟩ <;> simp [pushTok]
    · simp only [step, hl, hmod, if_neg hq] at hs
      cases Option.some.inj hs
      refine ⟨hadvInv, ?_, ?_⟩ <;> simp
  | None =>
    rw [hl] at hadvInv
    simp only [step, hl, hmod] at hs
    cases Option.some.inj hs
    have hn := normalStep_inv
      ⟨st.tokens, st.cur, .None, st.base, ⟨st.pos.row, st.pos.col + 1⟩⟩ c hrow hadvInv
    refine ⟨hn.1, ?_, ?_⟩ <;> rcases hn.2 with hp | hp <;> rw [hp] <;> simp
  | Int =>
    rw [hl] at hadvInv
    by_cases hd : '0' ≤ c ∧ c ≤ '9'
    · simp only [step, hl, hmod, if_pos hd] at hs
      cases Option.some.inj hs
      refine ⟨hadvInv, ?_, ?_⟩ <;> simp
    · by_cases hh : ('a' ≤ c ∧ c ≤ 'f') ∨ ('A' ≤ c ∧ c ≤ 'F')
      · by_cases hb : st.base = 16
        · simp only [step, hl, hmod, if_neg hd, if_pos hh, if_pos hb] at hs
          cases Option.some.inj hs
          refine ⟨hadvInv, ?_, ?_⟩ <;> simp
        · simp only [step, hl, hmod, if_neg hd, if_pos hh, if_neg hb] at hs
          cases hs
      · by_cases hx : c = 'x'
        · by_cases hlen : st.cur.length = 1
          · simp only [step, hl, hmod, if_neg hd, if_neg hh, if_pos hx, if_pos hlen] at hs
            cases Option.some.inj hs
            refine ⟨hadvInv, ?_, ?_⟩ <;> simp
          · simp only [step, hl, hmod, if_neg hd, if_neg hh, if_pos hx, if_neg hlen] at hs
            cases hs
        · cases hfr : fromStrRadix st.base st.cur with
          | none =>
            simp only [step, hl, hmod, if_neg hd, if_neg hh, if_neg hx, hfr] at hs
            cases hs
          | some n =>
            simp only [step, hl, hmod, if_neg hd, if_neg hh, if_neg hx, hfr] at hs
            cases Option.some.inj hs
            have hinv2 : StInv (⟨(pushTok ⟨st.tokens, st.cur, .Int, st.base,
                  ⟨st.pos.row, st.pos.col + 1⟩⟩ (.Literal (.Int n))).tokens, [], .None, 10,
                (pushTok ⟨st.tokens, st.cur, .Int, st.base,
                  ⟨st.pos.row, st.pos.col + 1⟩⟩ (.Literal (.Int n))).pos⟩ : ScanState) :=
              StInv_pushTok _ hadvInv
            have hn := normalStep_inv (⟨(pushTok ⟨st.tokens, st.cur, .Int, st.base,
                  ⟨st.pos.row, st.pos.col + 1⟩⟩ (.Literal (.Int n))).tokens, [], .None, 10,
                (pushTok ⟨st.tokens, st.cur, .Int, st.base,
                  ⟨st.pos.row, st.pos.col + 1⟩⟩ (.Literal (.Int n))).pos⟩ : ScanState) c
              hrow hinv2
            refine ⟨hn.1, ?_, ?_⟩ <;> rcases hn.2 with hp | hp <;> rw [hp] <;>
              simp [pushTok]

theorem scanChars_inv : ∀ (cs : List Char) (st st' : ScanState),
    scanChars st cs = some st' → StInv st →
    st.pos.col + cs.length < 65536 → st.pos.row + cs.length < 65536 →
    StInv st' := by
  intro cs
  induction cs with
  | nil =>
    intro st st' h hinv _ _
    cases Option.some.inj h
    exact hinv
  | cons c rest ih =>
    intro st st' h hinv hcol hrow
    simp only [scanChars] at h
    cases hstep : step st c with
    | none => rw [hstep] at h; cases h
    | some st1 =>
      rw [hstep] at h
      simp only [Option.some_bind] at h
      simp only [List.length_cons] at hcol hrow
      obtain ⟨hinv1, hc1, hr1⟩ := step_inv hstep (by omega) (by omega) hinv
      exact ih st1 st' h hinv1 (by omega) (by omega)

theorem finish_pairwise {st : ScanState} {toks : List Token}
    (hinv : StInv st) (h : finish st = some toks) :
    List.Pairwise posLe (toks.map Token.pos) := by
  obtain ⟨h1, h2⟩ := hinv
  unfold finish at h
  cases hl : st.literal with
  | Str =>
    rw [hl] at h
    cases Option.some.inj h
    exact pairwise_push h1 h2
  | Int =>
    rw [hl] at h
    cases hfr : fromStrRadix st.base st.cur with
    | none => rw [hfr] at h; cases h
    | some n =>
      rw [hfr] at h
      cases Option.some.inj h
      exact pairwise_push h1 h2
  | None =>
    rw [hl] at h
    by_cases hc : st.cur = []
    · rw [if_pos hc] at h
      cases Option.some.inj h
      exact h1
    · rw [if_neg hc] at h
      cases Option.some.inj h
      exact pairwise_push h1 h2

/-- Claim C9, amended: for every input whose comment-stripped text is
shorter than 65536 characters (so the 16-bit column and row counters
never wrap), the positions attached to the emitted tokens are
non-decreasing in row-major order: the column advances once per
character examined and each newline bumps the row, which dominates the
column reset. -/
theorem token_positions_monotone (s : List Char)
    (hlen : (stripComments s).length < 65536) :
    ∀ toks, lex s = some toks → List.Pairwise posLe (toks.map Token.pos) := by
  intro toks h
  unfold lex scan at h
  cases hsc : scanChars initState (stripComments s) with
  | none => rw [hsc] at h; cases h
  | some st =>
    rw [hsc] at h
    simp only [Option.some_bind] at h
    have hinit : StInv initState := by
      constructor
      · simp [initState]
      · intro tk htk; simp [initState] at htk
    have hinv : StInv st :=
      scanChars_inv _ _ _ hsc hinit (by simpa [initState] using hlen)
        (by simpa [initState] using hlen)
    exact finish_pairwise hinv h

/-- Witness for the amended claim C9 at the input `a b`. -/
theorem token_positions_monotone_witness :
    (stripComments "a b".toList).length < 65536 ∧
    List.Pairwise posLe
      (([⟨.Identifier "a", ⟨0, 2⟩⟩, ⟨.Identifier "b", ⟨0, 3⟩⟩] : List Token).map Token.pos) :=
  ⟨by decide, token_positions_monotone "a b".toList (by decide) _ (by decide)⟩

theorem hasPair_false_of_not_mem {a b : Char} {s : List Char} (h : a ∉ s) :
    hasPair a b s = false := by
  induction s with
  | nil => rfl
  | cons c rest ih =>
    simp only [List.mem_cons, not_or] at h
    unfold hasPair
    rw [if_neg]
    · exact ih h.2
    · rintro ⟨rfl, _⟩
      exact h.1 rfl

theorem replicate_snoc (k : Nat) (a : Char) :
    List.replicate k a ++ [a] = List.replicate (k + 1) a := by
  induction k with
  | zero => rfl
  | succ n ih => simp only [List.replicate_succ, List.cons_append, ih]

theorem not_op_replicate (k : Nat) (c : Char) (hc : c ≠ 'b') :
    List.replicate k 'b' ≠ [c] := by
  cases k with
  | zero => simp
  | succ n =>
    rw [List.replicate_succ]
    intro hcontra
    injection hcontra with h1 h2
    exact hc h1.symm

theorem step_b (toks : List Token) (k : Nat) (base row col : Nat) :
    step ⟨toks, List.replicate k 'b', .None, base, ⟨row, col⟩⟩ 'b' =
      some ⟨toks, List.replicate (k + 1) 'b', .None, base, ⟨row, (col + 1) % 65536⟩⟩ := by
  have hno : ¬(List.replicate k 'b' = ['='] ∨ List.replicate k 'b' = ['&'] ∨
      List.replicate k 'b' = ['|'] ∨ List.replicate k 'b' = ['*'] ∨
      List.replicate k 'b' = ['/'] ∨ List.replicate k 'b' = ['<'] ∨
      List.replicate k 'b' = ['>'] ∨ List.replicate k 'b' = ['+'] ∨
      List.replicate k 'b' = ['-']) := by
    rintro (h | h | h | h | h | h | h | h | h) <;>
      exact not_op_replicate k _ (by decide) h
  show some (normalStep
    ⟨toks, List.replicate k 'b', .None, base, ⟨row, (col + 1) % 65536⟩⟩ 'b') = _
  unfold normalStep
  rw [if_neg (by decide : ¬('b' = ' ' ∨ 'b' = '\r' ∨ 'b' = '\t')),
    if_neg (by decide : ¬('b' = '\n')),
    if_neg (by decide : ¬('b' = '\x7b' ∨ 'b' = '\x7d' ∨ 'b' = '(' ∨ 'b' = ')' ∨
      'b' = ';' ∨ 'b' = '^')),
    if_neg (by decide : ¬('b' = '+')), if_neg (by decide : ¬('b' = '-')),
    if_neg (by decide : ¬('b' = '"')), if_neg (by decide : ¬('b' = '=')),
    if_neg (by decide : ¬('b' = '&' ∨ 'b' = '|' ∨ 'b' = '*' ∨ 'b' = '/' ∨
      'b' = '>' ∨ 'b' = '<')),
    if_neg (by decide : ¬('0' ≤ 'b' ∧ 'b' ≤ '9')),
    if_neg hno]
  rw [replicate_snoc]

theorem scan_b_run (n : Nat) : ∀ (toks : List Token) (k base row col : Nat), col < 65536 →
    scanChars ⟨toks, List.replicate k 'b', .None, base, ⟨row, col⟩⟩ (List.replicate n 'b') =
      some ⟨toks, List.replicate (k + n) 'b', .None, base, ⟨row, (col + n) % 65536⟩⟩ := by
  induction n with
  | zero =>
    intro toks k base row col hcol
    simp [scanChars, List.replicate, Nat.mod_eq_of_lt hcol]
  | succ m ih =>
    intro toks k base row col hcol
    rw [List.replicate_succ]
    simp only [scanChars]
    rw [step_b]
    simp only [Option.some_bind]
    rw [ih toks (k + 1) base row ((col + 1) % 65536) (Nat.mod_lt _ (by norm_num))]
    have e1 : k + 1 + m = k + (m + 1) := by omega
    have e2 : ((col + 1) % 65536 + m) % 65536 = (col + (m + 1)) % 65536 := by
      rw [Nat.mod_add_mod]
      congr 1
      omega
    rw [e1, e2]

theorem c9_final_step :
    step ⟨[⟨.Identifier "a", ⟨0, 2⟩⟩], c9run, .None, 10, ⟨0, 65535⟩⟩ ' ' =
      some ⟨c9tokens, [], .None, 10, ⟨0, 0⟩⟩ := by
  show some (normalStep
    ⟨[⟨.Identifier "a", ⟨0, 2⟩⟩], c9run, .None, 10, ⟨0, (65535 + 1) % 65536⟩⟩ ' ') = _
  have h0 : (65535 + 1) % 65536 = 0 := by norm_num
  rw [h0]
  unfold normalStep
  rw [if_pos (by decide : (' ' = ' ' ∨ ' ' = '\r' ∨ ' ' = '\t'))]
  unfold flushCur
  rw [if_neg (show ¬(c9run = []) from by
    intro hE
    have hlen := congrArg List.length hE
    rw [c9run, List.length_replicate] at hlen
    exact absurd hlen (by decide))]
  unfold pushTok
  show some (⟨[⟨.Identifier "a", ⟨0, 2⟩⟩] ++ [⟨TokenKind.new (String.mk c9run), ⟨0, 0⟩⟩],
      [], .None, 10, ⟨0, 0⟩⟩ : ScanState) =
    some (⟨c9tokens, [], .None, 10, ⟨0, 0⟩⟩ : ScanState)
  rfl

theorem c9_lex : lex c9input = some c9tokens := by
  have hmem : '/' ∉ c9input := by
    intro hm
    unfold c9input at hm
    rcases List.mem_cons.mp hm with h | hm2
    · exact absurd h (by decide)
    rcases List.mem_cons.mp hm2 with h | hm3
    · exact absurd h (by decide)
    rcases List.mem_append.mp hm3 with h4 | h5
    · rw [c9run, List.mem_replicate] at h4
      exact absurd h4.2 (by decide)
    · rw [List.mem_singleton] at h5
      exact absurd h5 (by decide)
  have hstrip : stripComments c9input = c9input :=
    stripComments_fixed (hasPair_false_of_not_mem hmem) (hasPair_false_of_not_mem hmem)
  unfold lex
  rw [hstrip]
  unfold scan c9input
  rw [show ('a' :: ' ' :: (c9run ++ [' '])) = ['a', ' '] ++ (c9run ++ [' ']) from rfl,
    scanChars_append]
  rw [show scanChars initState ['a', ' ']
      = some ⟨[⟨.Identifier "a", ⟨0, 2⟩⟩], [], .None, 10, ⟨0, 2⟩⟩ from by decide]
  rw [Option.some_bind, scanChars_append]
  have h3 : scanChars ⟨[⟨.Identifier "a", ⟨0, 2⟩⟩], [], .None, 10, ⟨0, 2⟩⟩ c9run
      = some ⟨[⟨.Identifier "a", ⟨0, 2⟩⟩], c9run, .None, 10, ⟨0, 65535⟩⟩ := by
    unfold c9run
    have hrun := scan_b_run 65533 [⟨.Identifier "a", ⟨0, 2⟩⟩] 0 10 0 2 (by norm_num)
    rw [show (0 : Nat) + 65533 = 65533 from by norm_num,
      show (2 + 65533) % 65536 = 65535 from by norm_num] at hrun
    exact hrun
  rw [h3, Option.some_bind]
  rw [show scanChars ⟨[⟨.Identifier "a", ⟨0, 2⟩⟩], c9run, .None, 10, ⟨0, 65535⟩⟩ [' ']
      = (step ⟨[⟨.Identifier "a", ⟨0, 2⟩⟩], c9run, .None, 10, ⟨0, 65535⟩⟩ ' ').bind
        (fun st2 => scanChars st2 []) from rfl]
  rw [c9_final_step, Option.some_bind]
  rfl

/-- Claim C9, counterexample: the claim fails for inputs carrying a row
of 65536 or more characters, because the column counter is a `u16` and
wraps.  Lexing `"a "` followed by 65533 `b` characters and a closing
space emits `Identifier "a"` at position (0, 2) and then the long
identifier at position (0, 0): the position attached to a later token
decreased. -/
theorem positions_wrap_decrease :
    lex c9input = some c9tokens ∧
    ¬ List.Pairwise posLe (c9tokens.map Token.pos) := by
  refine ⟨c9_lex, ?_⟩
  intro hp
  rw [show c9tokens.map Token.pos = [⟨0, 2⟩, ⟨0, 0⟩] from rfl,
    List.pairwise_cons] at hp
  exact absurd (hp.1 ⟨0, 0⟩ (by simp)) (by decide)

end Ski
